import Mathlib

/-!
Verification of the sampling/extraction/batching pipeline of
`Standalone/KPConvX/data_handlers/scene_seg.py` (class `SceneSegDataset`).

Shallow-embedding conventions:
* numpy float arrays are modelled over `ℚ` (exact arithmetic in place of a
  float tolerance); a point is its list of coordinates;
* the KD-tree capabilities are modelled by their contracts, with squared
  distances so that the source's `r * np.sqrt(dim)` scaling becomes
  `r ^ 2 * dim` exactly: `query_radius` keeps the points at distance at most
  `r`; `query` (k nearest neighbours) and `np.argpartition(dists, k)[:k]`
  are stable selections of the k smallest keys, the latter failing when
  `k >= len(dists)` exactly as numpy does;
* randomness (`np.random.choice`, the centre noise, the regenerated regular
  queue) is an explicit oracle argument; `np.random.choice(n)` applied to
  oracle value `v` yields `v % n` and raises when `n = 0`;
* raised exceptions are `.err` (or `none` for the region extractor); a call
  that has not returned (the class-balanced rejection loop spinning, or a
  batch loop still running) is `none` at the outer level.
-/

/-- A point: its list of coordinates. -/
abbrev Point := List ℚ

/-- Squared euclidean distance `np.sum((p - q) ** 2)` of two coordinate
lists. -/
def sqDist (p q : Point) : ℚ := ((p.zip q).map (fun c => (c.1 - c.2) ^ 2)).sum

/-- Chebyshev distance `np.max(np.abs(p - q), axis=1)` (0 on an empty
list). -/
def chebDist (p q : Point) : ℚ := ((p.zip q).map (fun c => |c.1 - c.2|)).foldr max 0

/-- The source's per-axis strict cube mask
`np.all(p > q - R) and np.all(p < q + R)`. -/
def inCubeStrict (p q : Point) (R : ℚ) : Bool :=
  (p.zip q).all (fun c => decide (c.2 - R < c.1 ∧ c.1 < c.2 + R))

/-- Pointwise addition (`center_point + noise`). -/
def addP (p q : Point) : Point := (p.zip q).map (fun c => c.1 + c.2)

/-- Python `int(x)` on a rational: truncation toward zero. -/
def pyInt (q : ℚ) : ℤ :=
  if 0 ≤ q then ((q.num.toNat / q.den : ℕ) : ℤ) else -(((-q).num.toNat / (-q).den : ℕ) : ℤ)

/-- Python's `pat in s` substring test. -/
def hasSubstring (s pat : String) : Bool :=
  (List.range (s.toList.length + 1)).any (fun i => pat.toList.isPrefixOf (s.toList.drop i))

/-- The configuration and the immutable per-scene data of `SceneSegDataset`
read by the sampling pipeline.  `input_points` is each scene's KD-tree data
(`np.array(tree.data)`: already the reduced 2-D coordinates in cylindric
mode), `input_features` each scene's feature rows, `input_labels` each
scene's per-point labels, `input_z` the stored height coordinates. -/
structure Dataset where
  data_sampler : String
  set : String
  num_classes : ℕ
  label_values : List ℤ
  ignored_labels : List ℤ
  input_points : List (List Point)
  input_features : List (List (List ℚ))
  input_labels : List (List ℤ)
  input_z : List (List ℚ)
  cylindric_input : Bool
  use_cubes : Bool
  dim : ℕ
  in_radius : ℚ
  b_lim : ℚ
deriving DecidableEq

/-- The shared regular-sampling state: the shuffled queue (the pairs
`(reg_sample_clouds[i], reg_sample_pts[i])`), the cursor `reg_sampling_i`
and the vote counter `reg_votes`. -/
structure RegState where
  queue : List (ℕ × Point)
  cursor : ℕ
  votes : ℕ
deriving DecidableEq

/-- What one call of `sample_input_center` produces: a
`(cloud_ind, center_point)` pair, the `(None, None)` END sentinel, or a
raised exception. -/
inductive SampleResult where
  | pair (cloud_ind : ℕ) (center_point : Point)
  | END
  | err
deriving DecidableEq

/-- The `data_sampler == 'regular'` branch of `sample_input_center`
(scene_seg.py lines 503-524), executed under `worker_lock`.  `fresh` is the
queue that `new_reg_sampling_pts()` would install (its randomness made an
explicit argument); reading index 0 of an empty regenerated queue raises. -/
def regularSample (theSet : String) (fresh : List (ℕ × Point)) (s : RegState) :
    SampleResult × RegState :=
  if h : s.cursor < s.queue.length then
    (.pair (s.queue.get ⟨s.cursor, h⟩).1 (s.queue.get ⟨s.cursor, h⟩).2,
      { s with cursor := s.cursor + 1 })
  else if theSet = "validation" then
    match fresh with
    | [] => (.err, { queue := [], cursor := 0, votes := s.votes + 1 })
    | e :: rest => (.pair e.1 e.2, { queue := e :: rest, cursor := 1, votes := s.votes + 1 })
  else (.END, s)

/-- `prepare_label_inds` (lines 403-426), the `self.all_inds` part: every
`(cloud_ind, point_ind)` pair of every scene. -/
def all_inds (input_labels : List (List ℤ)) : List (ℕ × ℕ) :=
  (List.range input_labels.length).flatMap
    (fun ci => (List.range ((input_labels.getD ci []).length)).map (fun pj => (ci, pj)))

/-- `prepare_label_inds` (lines 403-426), the `self.label_indices` part: for
each entry of `label_values`, the `(cloud_ind, point_ind)` pairs of the
points carrying that label value. -/
def label_indices (input_labels : List (List ℤ)) (label_values : List ℤ) :
    List (List (ℕ × ℕ)) :=
  label_values.map (fun lv =>
    (List.range input_labels.length).flatMap (fun ci =>
      ((List.range ((input_labels.getD ci []).length)).filter
        (fun pj => decide ((input_labels.getD ci []).getD pj 0 = lv))).map (fun pj => (ci, pj))))

/-- `np.random.choice(n)` on oracle value `v`: a uniform draw modelled as
`v % n`; raises on `n = 0`. -/
def pyChoice (n v : ℕ) : Option ℕ := if n = 0 then none else some (v % n)

/-- The rejection loop of the class-balanced sampler, drawing `rand_l` until
it avoids `ignored_labels`; `none` when the oracle stream runs out (the
`while` loop has not returned). -/
def draw_rand_l (num_classes : ℕ) (ignored : List ℤ) : List ℕ → Option ℕ
  | [] => none
  | v :: vs =>
    if ((v % num_classes : ℕ) : ℤ) ∈ ignored then draw_rand_l num_classes ignored vs
    else some (v % num_classes)

/-- Common tail of the three random branches (lines 546-555): read the
centre from the scene's tree data, append the stored height coordinate in
cylindric mode, then add the centre noise. -/
def random_center (d : Dataset) (ci pj : ℕ) (noise : Point) : SampleResult :=
  match (d.input_points.getD ci [])[pj]? with
  | none => .err
  | some p =>
    if d.cylindric_input then
      match (d.input_z.getD ci [])[pj]? with
      | none => .err
      | some z => .pair ci (addP (p ++ [z]) noise)
    else .pair ci (addP p noise)

/-- The `'random' in data_sampler` branches of `sample_input_center`
(lines 526-555): class-balanced `c-random`, scene-balanced `A-random`, and
otherwise the uniform draw over `all_inds`.  `none` = the call has not
returned (the rejection loop exhausted its oracle). -/
def randomSample (d : Dataset) (labelDraws : List ℕ) (draw1 draw2 : ℕ) (noise : Point) :
    Option SampleResult :=
  if d.data_sampler = "c-random" then
    if d.num_classes = 0 then some .err
    else
      match draw_rand_l d.num_classes d.ignored_labels labelDraws with
      | none => none
      | some rand_l =>
        match (label_indices d.input_labels d.label_values)[rand_l]? with
        | none => some .err
        | some li =>
          match pyChoice li.length draw1 with
          | none => some .err
          | some rand_ind =>
            some (random_center d (li.getD rand_ind (0, 0)).1 (li.getD rand_ind (0, 0)).2 noise)
  else if d.data_sampler = "A-random" then
    match pyChoice d.input_features.length draw1 with
    | none => some .err
    | some ci =>
      match pyChoice (d.input_features.getD ci []).length draw2 with
      | none => some .err
      | some pj => some (random_center d ci pj noise)
  else
    match pyChoice (all_inds d.input_labels).length draw1 with
    | none => some .err
    | some rand_ind =>
      some (random_center d ((all_inds d.input_labels).getD rand_ind (0, 0)).1
        ((all_inds d.input_labels).getD rand_ind (0, 0)).2 noise)

/-- `SceneSegDataset.sample_input_center` (lines 501-560): dispatch on
`data_sampler` — `'regular'` first, then any name containing `'random'`,
and a raised `ValueError` otherwise.  `none` = the call has not returned. -/
def sample_input_center (d : Dataset) (fresh : List (ℕ × Point)) (s : RegState)
    (labelDraws : List ℕ) (draw1 draw2 : ℕ) (noise : Point) :
    Option (SampleResult × RegState) :=
  if d.data_sampler = "regular" then some (regularSample d.set fresh s)
  else if hasSubstring d.data_sampler "random" then
    (randomSample d labelDraws draw1 draw2 noise).map (fun r => (r, s))
  else some (.err, s)

/-- `n` successive regular-policy calls (same role, same regeneration
oracle), collecting each call's result. -/
def sample_calls (theSet : String) (fresh : List (ℕ × Point)) :
    ℕ → RegState → List SampleResult × RegState
  | 0, s => ([], s)
  | n + 1, s =>
    let r := regularSample theSet fresh s
    let rest := sample_calls theSet fresh n r.2
    (r.1 :: rest.1, rest.2)

/-- KD-tree `query_radius(q, r)` by its contract, over squared distances
(`sqDist p q ≤ r2` with `r2 = r ^ 2` is `dist(p, q) ≤ r` for `r ≥ 0`):
the `(index, point)` pairs of the points within the radius, in scene
order. -/
def query_radius (pts : List Point) (q : Point) (r2 : ℚ) : List (ℕ × Point) :=
  pts.enum.filter (fun ip => decide (sqDist ip.2 q ≤ r2))

/-- Stable selection of the `k` entries with smallest key: sort by key
(mergeSort is stable, so ties keep input order) and take `k`.  Models both
`KDTree.query(q, k)` (k nearest neighbours, key = distance) and
`np.argpartition(dists, k)[:k]` (key = dists). -/
def smallestK {α : Type} (key : α → ℚ) (xs : List α) (k : ℕ) : List α :=
  ((((xs.map (fun x => (key x, x))).mergeSort (fun a b => decide (a.1 ≤ b.1))).map
    (fun c => c.2)).take k)

/-- The entries `smallestK` discards, in the same sorted order. -/
def smallestKRest {α : Type} (key : α → ℚ) (xs : List α) (k : ℕ) : List α :=
  ((((xs.map (fun x => (key x, x))).mergeSort (fun a b => decide (a.1 ≤ b.1))).map
    (fun c => c.2)).drop k)

/-- `KDTree.query(q, k)` by its contract: the `k` nearest neighbours of the
query point among the scene's points, as `(index, point)` pairs (squared
distance as the sort key; ties keep scene order). -/
def knnQuery (pts : List Point) (q : Point) (k : ℕ) : List (ℕ × Point) :=
  smallestK (fun ip => sqDist ip.2 q) pts.enum k

/-- `SceneSegDataset.get_input_area` (lines 562-651), the index-resolution
part, returning the region's `(index, point)` pairs.  `none` models a
raised exception: an unknown scene index, or numpy's `argpartition(dists,
kth)` with `kth >= len(dists)` in the cube crop.  Negative `in_radius` of
magnitude `k`: query the `k` (doubled for cubes) nearest neighbours unless
the scene has at most that many points, then for cubes crop to the `k`
points of smallest Chebyshev distance; positive `in_radius`: ball query of
radius `r` (scaled by `sqrt(dim)`, or `sqrt(dim - 1)` in cylindric mode,
for cubes — over squared distances the factor is `dim` resp. `dim - 1`),
then for cubes the strict box mask of half-width `in_radius`. -/
def get_input_area (d : Dataset) (cloud_ind : ℕ) (center_point : Point) :
    Option (List (ℕ × Point)) :=
  let q := if d.cylindric_input then center_point.take 2 else center_point
  match d.input_points[cloud_ind]? with
  | none => none
  | some pts =>
    if d.in_radius < 0 then
      let k0 := (⌊-d.in_radius⌋).toNat
      let k := if d.use_cubes then 2 * k0 else k0
      let inds := if pts.length > k then knnQuery pts q k
                  else pts.enum
      if d.use_cubes then
        if k0 < inds.length then some (smallestK (fun ip => chebDist ip.2 q) inds k0)
        else none
      else some inds
    else
      let r2 := if d.use_cubes then
                  (if d.cylindric_input then d.in_radius ^ 2 * ((d.dim - 1 : ℕ) : ℚ)
                   else d.in_radius ^ 2 * (d.dim : ℚ))
                else d.in_radius ^ 2
      let inds := query_radius pts q r2
      if d.use_cubes then some (inds.filter (fun ip => inCubeStrict ip.2 q d.in_radius))
      else some inds

/-- One oracle packet for one `sample_input_center` call inside the batch
loop. -/
structure CallOracle where
  fresh : List (ℕ × Point)
  labelDraws : List ℕ
  draw1 : ℕ
  draw2 : ℕ
  noise : Point

/-- How a `__getitem__` call can end: `batch sizes total sawEnd` is a
returned non-empty batch (`sizes` the per-region point counts, `total` the
final value of `batch_n_pts`, `sawEnd` whether the loop stopped on the END
sentinel rather than on the budget test); `empty` the explicit empty input
dict of lines 777-782; `raised` a propagating exception. -/
inductive BatchOutcome where
  | batch (sizes : List ℕ) (total : ℤ) (sawEnd : Bool)
  | empty
  | raised
deriving DecidableEq

/-- The accumulation loop of `SceneSegDataset.__getitem__` (lines 678-782).
The extract/augment/subsample stage is abstracted by
`area cloud_ind center = (raw count, post-subsampling count)`: the loop
skips the region when the raw count is below 1, otherwise counts the
post-subsampling count — topped up to exactly `k = -in_radius` in
fixed-count mode — and stops once `batch_n_pts > int(b_lim)`.  `none` = the
call has not returned within the modelled calls. -/
def getitem_loop (d : Dataset) (area : ℕ → Point → ℕ × ℕ) :
    List CallOracle → RegState → List ℕ → ℤ → Option (BatchOutcome × RegState)
  | [], _, _, _ => none
  | o :: os, s, sizes, tot =>
    match sample_input_center d o.fresh s o.labelDraws o.draw1 o.draw2 o.noise with
    | none => none
    | some (.err, s1) => some (.raised, s1)
    | some (.END, s1) =>
      some ((if sizes.length < 1 then .empty else .batch sizes tot true), s1)
    | some (.pair ci cp, s1) =>
      let n := (area ci cp).2
      if (area ci cp).1 < 1 then getitem_loop d area os s1 sizes tot
      else
        let tot1 := tot + (n : ℤ) + (if d.in_radius < 0 then ⌊-d.in_radius⌋ - (n : ℤ) else 0)
        if tot1 > pyInt d.b_lim then some (.batch (sizes ++ [n]) tot1 false, s1)
        else getitem_loop d area os s1 (sizes ++ [n]) tot1

/-- `__getitem__` from a fresh batch (empty region lists, zero counter). -/
def getitem (d : Dataset) (area : ℕ → Point → ℕ × ℕ) (os : List CallOracle) (s : RegState) :
    Option (BatchOutcome × RegState) :=
  getitem_loop d area os s [] 0

/-- The verification loop of `calib_batch_limit` (lines 987-997): draw an
index among the recorded region sizes (`np.random.choice` over them), add
that size, count the region, stop as soon as the accumulated size strictly
exceeds the budget; returns `(batch_n, batch_n_pts)`.  `none` = the draw
oracle ran out before the budget was exceeded. -/
def calib_verify_loop (cloudN : List ℕ) (blim : ℚ) : List ℕ → ℕ → ℕ → Option (ℕ × ℕ)
  | [], _, _ => none
  | v :: vs, bn, bp =>
    let bp1 := bp + cloudN.getD (v % cloudN.length) 0
    if blim < (bp1 : ℚ) then some (bn + 1, bp1) else calib_verify_loop cloudN blim vs (bn + 1) bp1

/-- `SceneSegDataset.calib_batch_limit` (lines 920-1020) as a function of
the recorded single-region sizes `all_cloud_n` (the M draws of its first
loop, measured after the optional subsampling; the collection is assumed
complete, so the index draw `np.random.choice(samples)` ranges over the
recorded list): the new budget `mean * batch_size - 1` and the M simulated
verification batches, one per draw oracle in `drawss`. -/
def calib_batch_limit (cloudN : List ℕ) (batch_size : ℚ) (drawss : List (List ℕ)) :
    ℚ × List (Option (ℕ × ℕ)) :=
  let new_b_lim := ((cloudN.sum : ℚ) / (cloudN.length : ℚ)) * batch_size - 1
  (new_b_lim, drawss.map (fun ds => calib_verify_loop cloudN new_b_lim ds 0 0))

/-- Python list/tensor slicing `xs[:-u]`; note `xs[:-0]` is `xs[:0] = []`. -/
def pySliceHead {α : Type} (xs : List α) (u : ℕ) : List α :=
  if u = 0 then [] else xs.take (xs.length - u)

/-- Python list/tensor slicing `xs[-u:]`; note `xs[-0:]` is the whole
list. -/
def pySliceTail {α : Type} (xs : List α) (u : ℕ) : List α :=
  if u = 0 then xs else xs.drop (xs.length - u)

/-- `torch.sum(torch.reshape(v, (-1, 2)), axis=1)`: adjacent pairs summed;
fails, as `reshape` does, on an odd length. -/
def pairSums : List ℤ → Option (List ℤ)
  | [] => some []
  | [_] => none
  | a :: b :: rest => (pairSums rest).map (fun ys => (a + b) :: ys)

/-- The `untouched` count of the Mix3D step (lines 803-806):
`max(0, ceil(B * (1 - mix)))`, bumped by 1 when `B - untouched` is odd
(with `0 < mix` the count never exceeds `B`, so the natural subtraction
agrees with the source's integer one). -/
def untouchedCount (mix : ℚ) (B : ℕ) : ℕ :=
  let u0 := (max 0 ⌈(B : ℚ) * (1 - mix)⌉).toNat
  if (B - u0) % 2 = 1 then u0 + 1 else u0

/-- Lines 808-812 on one length vector: `stack_lengths[:-u]` merged
pairwise, concatenated with `stack_lengths[-u:]`. -/
def mixed_lengths (u : ℕ) (xs : List ℤ) : Option (List ℤ) :=
  (pairSums (pySliceHead xs u)).map (fun ys => ys ++ pySliceTail xs u)

/-- The concatenated batch as of lines 789-797 of `__getitem__`. -/
structure BatchArrays where
  stacked_points : List Point
  stacked_features : List (List ℚ)
  stacked_labels : List ℤ
  center_points : List Point
  cloud_inds : List ℕ
  input_inds : List ℕ
  input_invs : List ℕ
  stack_lengths : List ℤ
  stack_lengths0 : List ℤ
deriving DecidableEq

/-- The Mix3D block (lines 799-812): under the training role with
`mix3D > 0`, replace the two length vectors; every other field of the
batch is left as concatenated. -/
def mix3d_step (theSet : String) (mix : ℚ) (b : BatchArrays) : Option BatchArrays :=
  if theSet = "training" ∧ 0 < mix then
    let u := untouchedCount mix b.stack_lengths.length
    match mixed_lengths u b.stack_lengths, mixed_lengths u b.stack_lengths0 with
    | some l, some l0 => some { b with stack_lengths := l, stack_lengths0 := l0 }
    | _, _ => none
  else some b

/-- A minimal dataset fixture for concrete instantiations (regular policy,
single-pass test role). -/
def baseD : Dataset :=
  { data_sampler := "regular", set := "test", num_classes := 0, label_values := [],
    ignored_labels := [], input_points := [], input_features := [], input_labels := [],
    input_z := [], cylindric_input := false, use_cubes := false, dim := 3,
    in_radius := 1, b_lim := 100 }

theorem sample_calls_spec (theSet : String) (fresh : List (ℕ × Point)) :
    ∀ (n : ℕ) (s : RegState), s.cursor + n ≤ s.queue.length →
      sample_calls theSet fresh n s =
        (((s.queue.drop s.cursor).take n).map (fun e => SampleResult.pair e.1 e.2),
          { s with cursor := s.cursor + n }) := by
  intro n
  induction n with
  | zero => intro s _; cases s; simp [sample_calls]
  | succ n ih =>
    intro s h
    have hlt : s.cursor < s.queue.length := by omega
    have hstep : regularSample theSet fresh s =
        (.pair (s.queue.get ⟨s.cursor, hlt⟩).1 (s.queue.get ⟨s.cursor, hlt⟩).2,
          { s with cursor := s.cursor + 1 }) := by
      rw [regularSample.eq_def, dif_pos hlt]
    have ih' := ih { s with cursor := s.cursor + 1 } (by simp only []; omega)
    simp only [sample_calls, hstep, ih']
    rw [List.drop_eq_getElem_cons hlt, List.take_succ_cons, List.map_cons]
    simp [List.get_eq_getElem]
    omega

/-- C1: under the regular policy, `sample_input_center` behaves as the
locked cursor machine: while the cursor is below the queue length each call
returns the queued `(scene_id, point)` pair at the cursor and advances the
cursor by exactly 1 (so any run of calls staying within the queue returns
the queued pairs in order, all of them non-END); at cursor = queue length a
non-validation (e.g. test) role returns the END sentinel with the state
unchanged, while the validation role installs the freshly regenerated
queue, resets the cursor (consuming entry 0, so the cursor ends at 1),
increments the vote counter by exactly 1 and returns the fresh queue's
first pair. -/
theorem claim_C1 (d : Dataset) (fresh : List (ℕ × Point)) (s : RegState)
    (hreg : d.data_sampler = "regular") :
    (∀ lds d1 d2 nz,
      sample_input_center d fresh s lds d1 d2 nz = some (regularSample d.set fresh s)) ∧
    (∀ h : s.cursor < s.queue.length,
      regularSample d.set fresh s =
        (.pair (s.queue.get ⟨s.cursor, h⟩).1 (s.queue.get ⟨s.cursor, h⟩).2,
          { s with cursor := s.cursor + 1 })) ∧
    (∀ n, s.cursor + n ≤ s.queue.length →
      sample_calls d.set fresh n s =
        (((s.queue.drop s.cursor).take n).map (fun e => SampleResult.pair e.1 e.2),
          { s with cursor := s.cursor + n })) ∧
    (s.cursor = s.queue.length → d.set ≠ "validation" →
      regularSample d.set fresh s = (.END, s)) ∧
    (s.cursor = s.queue.length → d.set = "validation" → ∀ e rest, fresh = e :: rest →
      regularSample d.set fresh s =
        (.pair e.1 e.2, { queue := e :: rest, cursor := 1, votes := s.votes + 1 })) := by
  refine ⟨?_, ?_, ?_, ?_, ?_⟩
  · intro lds d1 d2 nz
    simp [sample_input_center, hreg]
  · intro h
    rw [regularSample.eq_def, dif_pos h]
  · intro n hn
    exact sample_calls_spec d.set fresh n s hn
  · intro hc hv
    rw [regularSample.eq_def, dif_neg (by omega), if_neg hv]
  · intro hc hv e rest hf
    subst hf
    rw [regularSample.eq_def, dif_neg (by omega), if_pos hv]

/-- Witness for C1 at a 2-element queue: both queued pairs are returned in
order with the cursor advanced to 2; the next test-role call returns END;
a validation-role call at the end of the queue consumes the fresh queue's
first element and bumps the votes from 3 to 4. -/
theorem claim_C1_witness :
    sample_calls "test" [] 2 ⟨[(0, [0]), (1, [1])], 0, 0⟩ =
      ([SampleResult.pair 0 [0], SampleResult.pair 1 [1]], ⟨[(0, [0]), (1, [1])], 2, 0⟩) ∧
    regularSample "test" [] ⟨[(0, [0]), (1, [1])], 2, 0⟩ =
      (.END, ⟨[(0, [0]), (1, [1])], 2, 0⟩) ∧
    regularSample "validation" [(5, [7])] ⟨[(0, [0])], 1, 3⟩ =
      (.pair 5 [7], ⟨[(5, [7])], 1, 4⟩) :=
  ⟨(claim_C1 baseD [] ⟨[(0, [0]), (1, [1])], 0, 0⟩ rfl).2.2.1 2 (by decide),
   (claim_C1 baseD [] ⟨[(0, [0]), (1, [1])], 2, 0⟩ rfl).2.2.2.1 rfl (by decide),
   (claim_C1 { baseD with set := "validation" } [(5, [7])] ⟨[(0, [0])], 1, 3⟩ rfl).2.2.2.2
     rfl rfl (5, [7]) [] rfl⟩

/-- C3 (amended): a `data_sampler` name that is neither `'regular'` nor
contains `'random'` as a substring makes `sample_input_center` raise
`ValueError` on every call, whatever the oracles and state: no pair is
ever returned for such a name.  (The original claim is falsified by
`claim_C3_counterexample`: the dispatch tests substring containment, so an
unrecognized name such as `"xrandom"` is silently handled by the uniform
random branch and returns a pair.) -/
theorem claim_C3 (d : Dataset) (fresh : List (ℕ × Point)) (s : RegState)
    (lds : List ℕ) (d1 d2 : ℕ) (nz : Point)
    (h1 : d.data_sampler ≠ "regular")
    (h2 : hasSubstring d.data_sampler "random" = false) :
    sample_input_center d fresh s lds d1 d2 nz = some (.err, s) := by
  rw [sample_input_center, if_neg h1, if_neg (by simp [h2])]

/-- Witness for C3: the unknown name `"foo"` raises on a concrete call. -/
theorem claim_C3_witness :
    sample_input_center { baseD with data_sampler := "foo" } [] ⟨[], 0, 0⟩ [] 0 0 [] =
      some (.err, ⟨[], 0, 0⟩) :=
  claim_C3 { baseD with data_sampler := "foo" } [] ⟨[], 0, 0⟩ [] 0 0 []
    (by decide) (by decide)

/-- Counterexample to C3 as stated: `"xrandom"` is none of the recognized
policy names (`regular`, `random`, `c-random`, `A-random`), yet
`sample_input_center` does not raise — the substring dispatch routes it to
the uniform random branch, which returns a `(scene_id, point)` pair. -/
theorem claim_C3_counterexample :
    ("xrandom" ≠ "regular" ∧ "xrandom" ≠ "random" ∧ "xrandom" ≠ "c-random" ∧
      "xrandom" ≠ "A-random") ∧
    sample_input_center
      { baseD with
          data_sampler := "xrandom", input_points := [[[9], [8]]],
          input_labels := [[0, 0]] }
      [] ⟨[], 0, 0⟩ [] 0 0 [] =
      some (.pair 0 [], ⟨[], 0, 0⟩) := by
  constructor
  · refine ⟨by decide, by decide, by decide, by decide⟩
  · decide

theorem pyInt_eq_floor (q : ℚ) (h : 0 ≤ q) : pyInt q = ⌊q⌋ := by
  rw [pyInt, if_pos h, Rat.floor_def, Int.ofNat_tdiv,
    Int.toNat_of_nonneg (Rat.num_nonneg.mpr h),
    Int.tdiv_eq_ediv (Rat.num_nonneg.mpr h) (by positivity)]

theorem gt_pyInt_rat {t : ℤ} {q : ℚ} (h0 : 0 ≤ q) (h : t > pyInt q) : (t : ℚ) > q := by
  rw [pyInt_eq_floor q h0] at h
  have h1 : (⌊q⌋ : ℚ) + 1 ≤ (t : ℚ) := by exact_mod_cast Int.add_one_le_iff.mpr h
  have h2 := Int.lt_floor_add_one q
  linarith

theorem random_center_ne_END (d : Dataset) (ci pj : ℕ) (nz : Point) :
    random_center d ci pj nz ≠ .END := by
  unfold random_center
  split
  · simp
  · split
    · split <;> simp
    · simp

theorem randomSample_ne_END (d : Dataset) (lds : List ℕ) (d1 d2 : ℕ) (nz : Point)
    (r : SampleResult) (h : randomSample d lds d1 d2 nz = some r) : r ≠ .END := by
  unfold randomSample at h
  split at h
  · split at h
    · cases h; simp
    · split at h
      · cases h
      · split at h
        · cases h; simp
        · split at h
          · cases h; simp
          · cases h; exact random_center_ne_END _ _ _ _
  · split at h
    · split at h
      · cases h; simp
      · split at h
        · cases h; simp
        · cases h; exact random_center_ne_END _ _ _ _
    · split at h
      · cases h; simp
      · cases h; exact random_center_ne_END _ _ _ _

theorem sample_END (d : Dataset) (fresh : List (ℕ × Point)) (s : RegState)
    (lds : List ℕ) (d1 d2 : ℕ) (nz : Point) (s1 : RegState)
    (h : sample_input_center d fresh s lds d1 d2 nz = some (.END, s1)) :
    d.data_sampler = "regular" ∧ d.set ≠ "validation" := by
  unfold sample_input_center at h
  split at h
  · rename_i hreg
    refine ⟨hreg, ?_⟩
    injection h with h
    rw [regularSample.eq_def] at h
    split at h
    · simp at h
    · split at h
      · rename_i hv
        split at h <;> simp_all
      · rename_i hv
        exact hv
  · split at h
    · rcases ho : randomSample d lds d1 d2 nz with _ | r
      · rw [ho] at h; simp at h
      · rw [ho] at h
        simp only [Option.map_some'] at h
        injection h with h
        have := randomSample_ne_END d lds d1 d2 nz r ho
        exact absurd (congrArg Prod.fst h) (by simpa using this)
    · injection h with h
      exact absurd (congrArg Prod.fst h) (by simp)

theorem getitem_budget (d : Dataset) (area : ℕ → Point → ℕ × ℕ) :
    ∀ (os : List CallOracle) (s : RegState) (sizes : List ℕ) (tot : ℤ)
      (sizes2 : List ℕ) (tot2 : ℤ) (s2 : RegState),
      getitem_loop d area os s sizes tot = some (.batch sizes2 tot2 false, s2) →
      tot2 > pyInt d.b_lim := by
  intro os
  induction os with
  | nil => intro s sizes tot sizes2 tot2 s2 h; simp [getitem_loop] at h
  | cons o os ih =>
    intro s sizes tot sizes2 tot2 s2 h
    rcases hs : sample_input_center d o.fresh s o.labelDraws o.draw1 o.draw2 o.noise
      with _ | ⟨r, s1⟩
    · simp [getitem_loop, hs] at h
    · cases r with
      | err => simp [getitem_loop, hs] at h
      | END =>
        simp only [getitem_loop, hs] at h
        split at h <;> simp_all
      | pair ci cp =>
        by_cases h0 : (area ci cp).1 < 1
        · simp only [getitem_loop, hs, if_pos h0] at h
          exact ih _ _ _ _ _ _ h
        · by_cases hb : tot + ((area ci cp).2 : ℤ) +
              (if d.in_radius < 0 then ⌊-d.in_radius⌋ - ((area ci cp).2 : ℤ) else 0) >
              pyInt d.b_lim
          · simp only [getitem_loop, hs, if_neg h0, if_pos hb, Option.some.injEq,
              Prod.mk.injEq, BatchOutcome.batch.injEq] at h
            obtain ⟨⟨-, htot, -⟩, -⟩ := h
            omega
          · simp only [getitem_loop, hs, if_neg h0, if_neg hb] at h
            exact ih _ _ _ _ _ _ h

theorem getitem_fixed_count (d : Dataset) (area : ℕ → Point → ℕ × ℕ) (k : ℕ)
    (hk : d.in_radius = -(k : ℚ)) (hk1 : 1 ≤ k) :
    ∀ (os : List CallOracle) (s : RegState) (sizes : List ℕ) (tot : ℤ)
      (sizes2 : List ℕ) (tot2 : ℤ) (f : Bool) (s2 : RegState),
      getitem_loop d area os s sizes tot = some (.batch sizes2 tot2 f, s2) →
      tot = (k : ℤ) * sizes.length → tot2 = (k : ℤ) * sizes2.length := by
  have hneg : d.in_radius < 0 := by
    rw [hk]
    simp only [Left.neg_neg_iff]
    exact_mod_cast hk1
  have hfl : ⌊-d.in_radius⌋ = (k : ℤ) := by rw [hk, neg_neg, Int.floor_natCast]
  intro os
  induction os with
  | nil => intro s sizes tot sizes2 tot2 f s2 h hinv; simp [getitem_loop] at h
  | cons o os ih =>
    intro s sizes tot sizes2 tot2 f s2 h hinv
    rcases hs : sample_input_center d o.fresh s o.labelDraws o.draw1 o.draw2 o.noise
      with _ | ⟨r, s1⟩
    · simp [getitem_loop, hs] at h
    · cases r with
      | err => simp [getitem_loop, hs] at h
      | END =>
        simp only [getitem_loop, hs] at h
        split at h
        · simp_all
        · simp only [Option.some.injEq, Prod.mk.injEq, BatchOutcome.batch.injEq] at h
          obtain ⟨⟨h1, h2, -⟩, -⟩ := h
          subst h1 h2
          exact hinv
      | pair ci cp =>
        have hstep : tot + ((area ci cp).2 : ℤ) +
            (if d.in_radius < 0 then ⌊-d.in_radius⌋ - ((area ci cp).2 : ℤ) else 0) =
            (k : ℤ) * ((sizes ++ [(area ci cp).2]).length : ℤ) := by
          rw [if_pos hneg, hfl, hinv]
          simp [List.length_append]
          ring
        by_cases h0 : (area ci cp).1 < 1
        · simp only [getitem_loop, hs, if_pos h0] at h
          exact ih _ _ _ _ _ _ _ h hinv
        · by_cases hb : tot + ((area ci cp).2 : ℤ) +
              (if d.in_radius < 0 then ⌊-d.in_radius⌋ - ((area ci cp).2 : ℤ) else 0) >
              pyInt d.b_lim
          · simp only [getitem_loop, hs, if_neg h0, if_pos hb, Option.some.injEq,
              Prod.mk.injEq, BatchOutcome.batch.injEq] at h
            obtain ⟨⟨h1, h2, -⟩, -⟩ := h
            subst h1 h2
            exact hstep
          · simp only [getitem_loop, hs, if_neg h0, if_neg hb] at h
            exact ih _ _ _ _ _ _ _ h hstep

theorem getitem_batch_nonempty (d : Dataset) (area : ℕ → Point → ℕ × ℕ) :
    ∀ (os : List CallOracle) (s : RegState) (sizes : List ℕ) (tot : ℤ)
      (sizes2 : List ℕ) (tot2 : ℤ) (f : Bool) (s2 : RegState),
      getitem_loop d area os s sizes tot = some (.batch sizes2 tot2 f, s2) →
      sizes2 ≠ [] := by
  intro os
  induction os with
  | nil => intro s sizes tot sizes2 tot2 f s2 h; simp [getitem_loop] at h
  | cons o os ih =>
    intro s sizes tot sizes2 tot2 f s2 h
    rcases hs : sample_input_center d o.fresh s o.labelDraws o.draw1 o.draw2 o.noise
      with _ | ⟨r, s1⟩
    · simp [getitem_loop, hs] at h
    · cases r with
      | err => simp [getitem_loop, hs] at h
      | END =>
        simp only [getitem_loop, hs] at h
        split at h
        · simp_all
        · rename_i hlen
          simp only [Option.some.injEq, Prod.mk.injEq, BatchOutcome.batch.injEq] at h
          obtain ⟨⟨h1, -, -⟩, -⟩ := h
          subst h1
          intro hnil
          rw [hnil] at hlen
          simp at hlen
      | pair ci cp =>
        by_cases h0 : (area ci cp).1 < 1
        · simp only [getitem_loop, hs, if_pos h0] at h
          exact ih _ _ _ _ _ _ _ h
        · by_cases hb : tot + ((area ci cp).2 : ℤ) +
              (if d.in_radius < 0 then ⌊-d.in_radius⌋ - ((area ci cp).2 : ℤ) else 0) >
              pyInt d.b_lim
          · simp only [getitem_loop, hs, if_neg h0, if_pos hb, Option.some.injEq,
              Prod.mk.injEq, BatchOutcome.batch.injEq] at h
            obtain ⟨⟨h1, -, -⟩, -⟩ := h
            subst h1
            simp
          · simp only [getitem_loop, hs, if_neg h0, if_neg hb] at h
            exact ih _ _ _ _ _ _ _ h

theorem getitem_empty_only_exhausted (d : Dataset) (area : ℕ → Point → ℕ × ℕ) :
    ∀ (os : List CallOracle) (s : RegState) (sizes : List ℕ) (tot : ℤ) (s2 : RegState),
      getitem_loop d area os s sizes tot = some (.empty, s2) →
      d.data_sampler = "regular" ∧ d.set ≠ "validation" := by
  intro os
  induction os with
  | nil => intro s sizes tot s2 h; simp [getitem_loop] at h
  | cons o os ih =>
    intro s sizes tot s2 h
    rcases hs : sample_input_center d o.fresh s o.labelDraws o.draw1 o.draw2 o.noise
      with _ | ⟨r, s1⟩
    · simp [getitem_loop, hs] at h
    · cases r with
      | err => simp [getitem_loop, hs] at h
      | END => exact sample_END d o.fresh s o.labelDraws o.draw1 o.draw2 o.noise s1 hs
      | pair ci cp =>
        by_cases h0 : (area ci cp).1 < 1
        · simp only [getitem_loop, hs, if_pos h0] at h
          exact ih _ _ _ _ h
        · by_cases hb : tot + ((area ci cp).2 : ℤ) +
              (if d.in_radius < 0 then ⌊-d.in_radius⌋ - ((area ci cp).2 : ℤ) else 0) >
              pyInt d.b_lim
          · simp only [getitem_loop, hs, if_neg h0, if_pos hb] at h
            simp at h
          · simp only [getitem_loop, hs, if_neg h0, if_neg hb] at h
            exact ih _ _ _ _ h

/-- C2 (amended): the batch loop returns a non-empty batch only when the
accumulated pre-budget-check total strictly exceeds the configured budget
(the source compares with `int(b_lim)`; over a non-negative budget this is
the same strict exceedance of `b_lim` itself), or when the center sampler
returned the END sentinel mid-batch (`sawEnd = true`, the exhaustion case,
which subsumes the zero-regions empty batch); and in fixed-count mode
(`in_radius = -k`, `k ≥ 1`) every accepted region contributes exactly `k`
to the running total whatever its actual point count, so the final total is
`k` times the number of accepted regions.  (The original claim — budget
exceedance or *zero* regions — is falsified by `claim_C2_counterexample`:
the sampler can be exhausted after some regions were already accepted, and
the call then returns that partial batch with a total below the budget.) -/
theorem claim_C2 (d : Dataset) (area : ℕ → Point → ℕ × ℕ) :
    (∀ os s sizes2 tot2 s2,
      getitem d area os s = some (.batch sizes2 tot2 false, s2) →
      tot2 > pyInt d.b_lim ∧ (0 ≤ d.b_lim → (tot2 : ℚ) > d.b_lim)) ∧
    (∀ k : ℕ, d.in_radius = -(k : ℚ) → 1 ≤ k →
      ∀ os s sizes2 tot2 f s2,
        getitem d area os s = some (.batch sizes2 tot2 f, s2) →
        tot2 = (k : ℤ) * sizes2.length) := by
  constructor
  · intro os s sizes2 tot2 s2 h
    have h1 := getitem_budget d area os s [] 0 sizes2 tot2 s2 h
    exact ⟨h1, fun h0 => gt_pyInt_rat h0 h1⟩
  · intro k hk hk1 os s sizes2 tot2 f s2 h
    exact getitem_fixed_count d area k hk hk1 os s [] 0 sizes2 tot2 f s2 h (by simp)

/-- Witness for C2 on a concrete fixed-count run (`k = 2`, budget 3,
two accepted regions): the call returns on the budget test with total 4,
which exceeds both `int(3)` and `3`, and the total is `k` times the region
count. -/
theorem claim_C2_witness :
    getitem { baseD with in_radius := -(2 : ℚ), b_lim := 3 } (fun _ _ => (2, 2))
      [⟨[], [], 0, 0, []⟩, ⟨[], [], 0, 0, []⟩] ⟨[(0, [0]), (1, [0])], 0, 0⟩ =
      some (.batch [2, 2] 4 false, ⟨[(0, [0]), (1, [0])], 2, 0⟩) ∧
    (4 : ℤ) > pyInt (3 : ℚ) ∧ ((4 : ℤ) : ℚ) > (3 : ℚ) ∧
    (4 : ℤ) = (2 : ℤ) * (([2, 2] : List ℕ).length : ℤ) :=
  ⟨by decide,
   ((claim_C2 { baseD with in_radius := -(2 : ℚ), b_lim := 3 } (fun _ _ => (2, 2))).1
     [⟨[], [], 0, 0, []⟩, ⟨[], [], 0, 0, []⟩] ⟨[(0, [0]), (1, [0])], 0, 0⟩
     [2, 2] 4 ⟨[(0, [0]), (1, [0])], 2, 0⟩ (by decide)).1,
   ((claim_C2 { baseD with in_radius := -(2 : ℚ), b_lim := 3 } (fun _ _ => (2, 2))).1
     [⟨[], [], 0, 0, []⟩, ⟨[], [], 0, 0, []⟩] ⟨[(0, [0]), (1, [0])], 0, 0⟩
     [2, 2] 4 ⟨[(0, [0]), (1, [0])], 2, 0⟩ (by decide)).2 (by decide),
   (claim_C2 { baseD with in_radius := -(2 : ℚ), b_lim := 3 } (fun _ _ => (2, 2))).2
     2 (by decide) (by decide)
     [⟨[], [], 0, 0, []⟩, ⟨[], [], 0, 0, []⟩] ⟨[(0, [0]), (1, [0])], 0, 0⟩
     [2, 2] 4 false ⟨[(0, [0]), (1, [0])], 2, 0⟩ (by decide)⟩

/-- Counterexample to C2 as stated: with budget 100, a 1-element regular
test queue and a 5-point region, `__getitem__` returns a batch of one
region with total 5 ≤ 100 — neither over the budget nor with zero regions
(the break came from the END sentinel). -/
theorem claim_C2_counterexample :
    getitem { baseD with b_lim := 100 } (fun _ _ => (5, 5))
      [⟨[], [], 0, 0, []⟩, ⟨[], [], 0, 0, []⟩] ⟨[(0, [0])], 0, 0⟩ =
      some (.batch [5] 5 true, ⟨[(0, [0])], 1, 0⟩) ∧
    ¬ ((5 : ℤ) > pyInt (100 : ℚ)) ∧ ([5] : List ℕ) ≠ [] :=
  ⟨by decide, by decide, by decide⟩

/-- C7 (amended): when the accumulation loop of `__getitem__` collects zero
regions the call does not raise but returns the explicitly empty batch
(outcome `.empty`, after the deliberate sleep), and this outcome is reached
only when the sampler is the regular policy in a non-continuously-revisited
(single-pass) role — never under the random policies and never in the
validation role; conversely every returned non-empty batch holds at least
one region, so the empty dict is exactly the zero-region case.  (The
original claim's parenthetical "the END sentinel returned on the first
draw" is falsified by `claim_C7_counterexample`: empty regions can be
skipped before the END sentinel arrives, so END need not come on the first
draw — only before any region was accepted.) -/
theorem claim_C7 (d : Dataset) (area : ℕ → Point → ℕ × ℕ) :
    (∀ os s s2, getitem d area os s = some (.empty, s2) →
      d.data_sampler = "regular" ∧ d.set ≠ "validation") ∧
    (∀ os s sizes2 tot2 f s2,
      getitem d area os s = some (.batch sizes2 tot2 f, s2) → sizes2 ≠ []) :=
  ⟨fun os s s2 h => getitem_empty_only_exhausted d area os s [] 0 s2 h,
   fun os s sizes2 tot2 f s2 h => getitem_batch_nonempty d area os s [] 0 sizes2 tot2 f s2 h⟩

/-- Counterexample to C7's parenthetical: the first draw returns a pair
(whose region is empty and is skipped), END arrives only on the second
draw, and the call still produces the empty batch. -/
theorem claim_C7_counterexample :
    sample_input_center baseD [] ⟨[(0, [0])], 0, 0⟩ [] 0 0 [] =
      some (.pair 0 [0], ⟨[(0, [0])], 1, 0⟩) ∧
    getitem baseD (fun _ _ => (0, 0)) [⟨[], [], 0, 0, []⟩, ⟨[], [], 0, 0, []⟩]
      ⟨[(0, [0])], 0, 0⟩ = some (.empty, ⟨[(0, [0])], 1, 0⟩) :=
  ⟨by decide, by decide⟩

theorem getD_mem_of_lt {α : Type} (l : List α) (i : ℕ) (dflt : α) (h : i < l.length) :
    l.getD i dflt ∈ l := by
  rw [List.getD_eq_getElem?_getD, List.getElem?_eq_getElem h]
  exact List.getElem_mem h

theorem draw_rand_l_spec (num_classes : ℕ) (ignored : List ℤ) :
    ∀ (lds : List ℕ) (l : ℕ), draw_rand_l num_classes ignored lds = some l →
      ((l : ℤ) ∉ ignored) ∧ (num_classes ≠ 0 → l < num_classes) := by
  intro lds
  induction lds with
  | nil => intro l h; simp [draw_rand_l] at h
  | cons v vs ih =>
    intro l h
    rw [draw_rand_l] at h
    split at h
    · exact ih l h
    · rename_i hnot
      injection h with h
      subst h
      exact ⟨hnot, fun h0 => Nat.mod_lt v (Nat.pos_of_ne_zero h0)⟩

theorem label_indices_mem (input_labels : List (List ℤ)) (label_values : List ℤ)
    (l : ℕ) (li : List (ℕ × ℕ)) (h : (label_indices input_labels label_values)[l]? = some li)
    (ci pj : ℕ) (hm : (ci, pj) ∈ li) :
    ∃ lv, label_values[l]? = some lv ∧ pj < (input_labels.getD ci []).length ∧
      (input_labels.getD ci []).getD pj 0 = lv := by
  rw [label_indices, List.getElem?_map] at h
  rcases hv : label_values[l]? with _ | lv
  · rw [hv] at h; simp at h
  · rw [hv] at h
    simp only [Option.map_some', Option.some.injEq] at h
    subst h
    refine ⟨lv, rfl, ?_⟩
    rw [List.mem_flatMap] at hm
    obtain ⟨ci', -, hm2⟩ := hm
    rw [List.mem_map] at hm2
    obtain ⟨pj', hpj', heq⟩ := hm2
    obtain ⟨h1, h2⟩ : ci' = ci ∧ pj' = pj := by
      constructor <;> [exact congrArg Prod.fst heq; exact congrArg Prod.snd heq]
    subst h1 h2
    rw [List.mem_filter, List.mem_range] at hpj'
    exact ⟨hpj'.1, of_decide_eq_true hpj'.2⟩

theorem random_center_cloud (d : Dataset) (a b : ℕ) (nz : Point) (ci : ℕ) (cp : Point)
    (h : random_center d a b nz = .pair ci cp) : ci = a := by
  unfold random_center at h
  split at h
  · simp at h
  · split at h
    · split at h
      · simp at h
      · injection h with h1 h2
        exact h1.symm
    · injection h with h1 h2
      exact h1.symm

/-- C6 (amended): for the class-balanced `c-random` policy under the
configurations where class indices and label values coincide
(`label_values = [0, ..., num_classes - 1]`, the usual case): the sampler
never returns the END sentinel; the rejection loop only ever accepts a
label outside `ignored_labels`; and whenever a scene `X` carries only
ignored labels, no returned pair selects scene `X`.  (The original claim,
quantified over *every* dataset configuration, is falsified by
`claim_C6_counterexample`: the rejection test compares the drawn class
*index* against the ignored label *values*, so with `label_values = [5, 7]`
and `ignored_labels = [7]` the index 1 passes the test yet stands for the
ignored label 7, and the sampler selects the scene containing only that
label.) -/
theorem claim_C6 (d : Dataset) (X : ℕ)
    (hs : d.data_sampler = "c-random")
    (hid : d.label_values = (List.range d.num_classes).map Int.ofNat)
    (hX : ∀ x ∈ d.input_labels.getD X [], x ∈ d.ignored_labels) :
    (∀ fresh st lds d1 d2 nz r s2,
      sample_input_center d fresh st lds d1 d2 nz = some (r, s2) → r ≠ .END) ∧
    (∀ lds l, draw_rand_l d.num_classes d.ignored_labels lds = some l →
      (l : ℤ) ∉ d.ignored_labels) ∧
    (∀ fresh st lds d1 d2 nz ci cp s2,
      sample_input_center d fresh st lds d1 d2 nz = some (.pair ci cp, s2) → ci ≠ X) := by
  have hdisp : ∀ (fresh : List (ℕ × Point)) (st : RegState) lds d1 d2 nz
      (r : SampleResult) (s2 : RegState),
      sample_input_center d fresh st lds d1 d2 nz = some (r, s2) →
      randomSample d lds d1 d2 nz = some r := by
    intro fresh st lds d1 d2 nz r s2 h
    rw [sample_input_center, if_neg (by rw [hs]; decide),
      if_pos (by rw [hs]; decide)] at h
    rcases ho : randomSample d lds d1 d2 nz with _ | r'
    · rw [ho] at h; simp at h
    · rw [ho] at h
      simp only [Option.map_some', Option.some.injEq, Prod.mk.injEq] at h
      rw [h.1]
  refine ⟨?_, ?_, ?_⟩
  · intro fresh st lds d1 d2 nz r s2 h
    exact randomSample_ne_END d lds d1 d2 nz r (hdisp fresh st lds d1 d2 nz r s2 h)
  · intro lds l h
    exact (draw_rand_l_spec d.num_classes d.ignored_labels lds l h).1
  · intro fresh st lds d1 d2 nz ci cp s2 h
    have hr := hdisp fresh st lds d1 d2 nz _ s2 h
    rw [randomSample, if_pos hs] at hr
    split at hr
    · simp at hr
    · rename_i hC
      rcases hdl : draw_rand_l d.num_classes d.ignored_labels lds with _ | rand_l
      · simp [hdl] at hr
      · obtain ⟨hign, hlt⟩ := draw_rand_l_spec d.num_classes d.ignored_labels lds rand_l hdl
        rcases hli : (label_indices d.input_labels d.label_values)[rand_l]? with _ | li
        · simp [hdl, hli] at hr
        · rcases hch : pyChoice li.length d1 with _ | ri
          · simp [hdl, hli, hch] at hr
          · simp only [hdl, hli, hch, Option.some.injEq] at hr
            have hlen : li.length ≠ 0 := by
              rw [pyChoice] at hch
              split at hch
              · cases hch
              · assumption
            have hri : ri < li.length := by
              rw [pyChoice, if_neg hlen] at hch
              injection hch with hch
              subst hch
              exact Nat.mod_lt d1 (Nat.pos_of_ne_zero hlen)
            have hmem : li.getD ri (0, 0) ∈ li := getD_mem_of_lt _ _ _ hri
            have hcloud := random_center_cloud d _ _ nz ci cp hr
            obtain ⟨lv, hlv, hpj, hlab⟩ :=
              label_indices_mem d.input_labels d.label_values rand_l li hli
                (li.getD ri (0, 0)).1 (li.getD ri (0, 0)).2 (by simpa using hmem)
            have hlv' : lv = (rand_l : ℤ) := by
              rw [hid, List.getElem?_map, List.getElem?_range (hlt hC)] at hlv
              simp only [Option.map_some', Option.some.injEq] at hlv
              exact hlv.symm
            intro hcX
            rw [hcloud.symm.trans hcX] at hlab hpj
            have : (d.input_labels.getD X []).getD (li.getD ri (0, 0)).2 0 ∈
                d.input_labels.getD X [] := getD_mem_of_lt _ _ _ hpj
            have hin := hX _ this
            rw [hlab, hlv'] at hin
            exact hign hin

/-- Witness for C6 at an identity-labelled configuration (classes `[0, 1]`,
label 0 ignored, scene 0 carrying only label 0): the concrete call draws
class 1 and returns a pair from scene 1, not from the ignored-only scene
0. -/
theorem claim_C6_witness :
    sample_input_center
      { baseD with
          data_sampler := "c-random", num_classes := 2, label_values := [0, 1],
          ignored_labels := [0], input_labels := [[0, 0], [1]],
          input_points := [[[5], [6]], [[7]]] }
      [] ⟨[], 0, 0⟩ [1] 0 0 [] = some (.pair 1 [], ⟨[], 0, 0⟩) ∧ (1 : ℕ) ≠ 0 :=
  ⟨by decide,
   (claim_C6
     { baseD with
         data_sampler := "c-random", num_classes := 2, label_values := [0, 1],
         ignored_labels := [0], input_labels := [[0, 0], [1]],
         input_points := [[[5], [6]], [[7]]] }
     0 rfl (by decide) (by decide)).2.2 [] ⟨[], 0, 0⟩ [1] 0 0 [] 1 [] ⟨[], 0, 0⟩ (by decide)⟩

/-- Counterexample to C6 as stated: with `label_values = [5, 7]`,
`ignored_labels = [7]` and scene 0 carrying only the ignored label 7, the
class-balanced sampler accepts the drawn class index 1 (1 is not an ignored
*value*), which stands for the ignored label 7, and returns a pair from the
ignored-only scene 0. -/
theorem claim_C6_counterexample :
    ((7 : ℤ) ∈ ([7] : List ℤ)) ∧
    (∀ x ∈ ([7, 7] : List ℤ), x ∈ ([7] : List ℤ)) ∧
    sample_input_center
      { baseD with
          data_sampler := "c-random", num_classes := 2, label_values := [5, 7],
          ignored_labels := [7], input_labels := [[7, 7], [5]],
          input_points := [[[9], [9]], [[8]]] }
      [] ⟨[], 0, 0⟩ [1] 0 0 [] = some (.pair 0 [], ⟨[], 0, 0⟩) :=
  ⟨by decide, by decide, by decide⟩

theorem pairSums_spec :
    ∀ xs : List ℤ, xs.length % 2 = 0 →
      ∃ ys, pairSums xs = some ys ∧ ys.sum = xs.sum ∧ 2 * ys.length = xs.length ∧
        ∀ j a, ys[j]? = some a → a = xs.getD (2 * j) 0 + xs.getD (2 * j + 1) 0 := by
  intro xs
  induction xs using pairSums.induct with
  | case1 => intro _; exact ⟨[], rfl, rfl, rfl, by simp⟩
  | case2 a => intro h; simp at h
  | case3 a b rest ih =>
    intro h
    have h' : rest.length % 2 = 0 := by
      simp only [List.length_cons] at h
      omega
    obtain ⟨ys, h1, h2, h3, h4⟩ := ih h'
    refine ⟨(a + b) :: ys, ?_, ?_, ?_, ?_⟩
    · rw [pairSums, h1]
      rfl
    · simp only [List.sum_cons, h2]
      ring
    · simp only [List.length_cons]
      omega
    · intro j c hj
      cases j with
      | zero =>
        rw [List.getElem?_cons_zero] at hj
        injection hj with hj
        subst hj
        simp
      | succ j =>
        rw [List.getElem?_cons_succ] at hj
        have e1 : 2 * (j + 1) = 2 * j + 1 + 1 := by ring
        rw [e1, List.getD_cons_succ, List.getD_cons_succ, List.getD_cons_succ,
          List.getD_cons_succ]
        exact h4 j c hj

theorem untouchedCount_parity (mix : ℚ) (B : ℕ) :
    (B - untouchedCount mix B) % 2 = 0 := by
  simp only [untouchedCount]
  generalize (max 0 ⌈(B : ℚ) * (1 - mix)⌉).toNat = u0
  split <;> omega

theorem untouchedCount_zero (mix : ℚ) (B : ℕ) (h : untouchedCount mix B = 0) :
    B % 2 = 0 := by
  simp only [untouchedCount] at h
  revert h
  generalize (max 0 ⌈(B : ℚ) * (1 - mix)⌉).toNat = u0
  split <;> omega

theorem pySliceHead_length_even (u : ℕ) (xs : List ℤ)
    (hu : (xs.length - u) % 2 = 0) (hz : u = 0 → xs.length % 2 = 0) :
    (pySliceHead xs u).length % 2 = 0 := by
  rw [pySliceHead]
  split
  · simp
  · rw [List.length_take]
    rename_i h0
    rcases Nat.le_total u xs.length with hle | hle
    · have : xs.length - u ⊓ xs.length = xs.length - u := by omega
      omega
    · omega

theorem pySlice_sum (u : ℕ) (xs : List ℤ) :
    (pySliceHead xs u).sum + (pySliceTail xs u).sum = xs.sum := by
  rw [pySliceHead, pySliceTail]
  split
  · simp
  · rw [← List.sum_append, List.take_append_drop]

theorem pySliceHead_getD (u : ℕ) (xs : List ℤ) (i : ℕ)
    (h : i < (pySliceHead xs u).length) :
    (pySliceHead xs u).getD i 0 = xs.getD i 0 := by
  by_cases h0 : u = 0
  · rw [pySliceHead, if_pos h0] at h
    simp at h
  · rw [pySliceHead, if_neg h0] at h ⊢
    rw [List.length_take] at h
    rw [List.getD_eq_getElem?_getD, List.getElem?_take, if_pos (by omega),
      ← List.getD_eq_getElem?_getD]

/-- C9: under the training role with `mix3D > 0`, the Mix3D step completes
and alters only the two per-region length vectors: every other field of the
concatenated batch is exactly what it was before the step; each merged
entry of the new length vector is the sum of two adjacent original
lengths, and both new length vectors sum to the same totals as the
originals. -/
theorem claim_C9 (mix : ℚ) (b : BatchArrays)
    (hmix : 0 < mix) (hlen : b.stack_lengths0.length = b.stack_lengths.length) :
    ∃ b', mix3d_step "training" mix b = some b' ∧
      b'.stacked_points = b.stacked_points ∧
      b'.stacked_features = b.stacked_features ∧
      b'.stacked_labels = b.stacked_labels ∧
      b'.center_points = b.center_points ∧
      b'.cloud_inds = b.cloud_inds ∧
      b'.input_inds = b.input_inds ∧
      b'.input_invs = b.input_invs ∧
      b'.stack_lengths.sum = b.stack_lengths.sum ∧
      b'.stack_lengths0.sum = b.stack_lengths0.sum ∧
      (∀ j a, b'.stack_lengths[j]? = some a →
        2 * j + 1 <
          (pySliceHead b.stack_lengths (untouchedCount mix b.stack_lengths.length)).length →
        a = b.stack_lengths.getD (2 * j) 0 + b.stack_lengths.getD (2 * j + 1) 0) := by
  have hpar := untouchedCount_parity mix b.stack_lengths.length
  have hz := untouchedCount_zero mix b.stack_lengths.length
  obtain ⟨ys, hy1, hy2, hy3, hy4⟩ :=
    pairSums_spec (pySliceHead b.stack_lengths (untouchedCount mix b.stack_lengths.length))
      (pySliceHead_length_even _ _ hpar hz)
  obtain ⟨ys0, hz1, hz2, hz3, hz4⟩ :=
    pairSums_spec (pySliceHead b.stack_lengths0 (untouchedCount mix b.stack_lengths.length))
      (pySliceHead_length_even _ _ (by rw [hlen]; exact hpar) (by rw [hlen]; exact hz))
  refine ⟨{ b with
      stack_lengths := ys ++ pySliceTail b.stack_lengths
        (untouchedCount mix b.stack_lengths.length),
      stack_lengths0 := ys0 ++ pySliceTail b.stack_lengths0
        (untouchedCount mix b.stack_lengths.length) }, ?_, rfl, rfl, rfl, rfl, rfl, rfl, rfl,
    ?_, ?_, ?_⟩
  · rw [mix3d_step, if_pos ⟨rfl, hmix⟩]
    simp only [mixed_lengths, hy1, hz1, Option.map_some']
  · simp only [List.sum_append, hy2]
    exact pySlice_sum _ _
  · simp only [List.sum_append, hz2]
    exact pySlice_sum _ _
  · intro j a hj hlt
    simp only [List.getElem?_append] at hj
    rw [if_pos (by omega)] at hj
    have := hy4 j a hj
    rw [this, pySliceHead_getD _ _ _ (by omega), pySliceHead_getD _ _ _ (by omega)]

theorem untouchedCount_one (B : ℕ) :
    untouchedCount 1 B = if B % 2 = 1 then 1 else 0 := by
  simp [untouchedCount]

theorem mix3d_step_one_even (b : BatchArrays) (he : b.stack_lengths.length % 2 = 0) :
    mix3d_step "training" 1 b = some b := by
  rw [mix3d_step, if_pos ⟨rfl, by norm_num⟩]
  have hu : untouchedCount 1 b.stack_lengths.length = 0 := by
    rw [untouchedCount_one, if_neg (by omega)]
  rw [hu]
  simp [mixed_lengths, pySliceHead, pySliceTail, pairSums]

/-- C10: the Mix3D untouched count at `mix3D = 1` is
`max(0, ceil(B * (1 - 1))) = 0`, bumped to 1 exactly when `B` is odd; with
an even region count the `[:-0]` slice is empty and the `[-0:]` slice is
the whole vector, so the step is a no-op on the batch; with an odd count
the first `B - 1` lengths are merged pairwise and the last region is left
untouched. -/
theorem claim_C10 (b : BatchArrays)
    (hlen : b.stack_lengths0.length = b.stack_lengths.length) :
    (untouchedCount 1 b.stack_lengths.length =
      if b.stack_lengths.length % 2 = 1 then 1 else 0) ∧
    (b.stack_lengths.length % 2 = 0 → mix3d_step "training" 1 b = some b) ∧
    (b.stack_lengths.length % 2 = 1 →
      ∃ ys ys0,
        pairSums (b.stack_lengths.take (b.stack_lengths.length - 1)) = some ys ∧
        pairSums (b.stack_lengths0.take (b.stack_lengths.length - 1)) = some ys0 ∧
        mix3d_step "training" 1 b =
          some { b with
                 stack_lengths := ys ++ b.stack_lengths.drop (b.stack_lengths.length - 1),
                 stack_lengths0 :=
                   ys0 ++ b.stack_lengths0.drop (b.stack_lengths.length - 1) }) := by
  refine ⟨untouchedCount_one _, fun he => mix3d_step_one_even b he, fun ho => ?_⟩
  have hu : untouchedCount 1 b.stack_lengths.length = 1 := by
    rw [untouchedCount_one, if_pos ho]
  have hhead : pySliceHead b.stack_lengths 1 =
      b.stack_lengths.take (b.stack_lengths.length - 1) := by
    rw [pySliceHead, if_neg one_ne_zero]
  have hhead0 : pySliceHead b.stack_lengths0 1 =
      b.stack_lengths0.take (b.stack_lengths.length - 1) := by
    rw [pySliceHead, if_neg one_ne_zero, hlen]
  obtain ⟨ys, hy1, -, -, -⟩ :=
    pairSums_spec (b.stack_lengths.take (b.stack_lengths.length - 1))
      (by rw [List.length_take]; omega)
  obtain ⟨ys0, hz1, -, -, -⟩ :=
    pairSums_spec (b.stack_lengths0.take (b.stack_lengths.length - 1))
      (by rw [List.length_take, hlen]; omega)
  refine ⟨ys, ys0, hy1, hz1, ?_⟩
  rw [mix3d_step, if_pos ⟨rfl, by norm_num⟩, hu]
  simp only [mixed_lengths, hhead, hhead0, hy1, hz1, Option.map_some']
  simp [pySliceTail, hlen]

/-- Witness for C9 on a concrete two-region training batch with
`mix3D = 1`: the step completes, all non-length fields stay equal, and the
length sums are preserved. -/
theorem claim_C9_witness :
    ∃ b', mix3d_step "training" 1 ⟨[], [], [], [], [], [], [], [3, 4], [5, 6]⟩ = some b' ∧
      b'.stacked_points = [] ∧ b'.stacked_features = [] ∧ b'.stacked_labels = [] ∧
      b'.center_points = [] ∧ b'.cloud_inds = [] ∧ b'.input_inds = [] ∧ b'.input_invs = [] ∧
      b'.stack_lengths.sum = ([3, 4] : List ℤ).sum ∧
      b'.stack_lengths0.sum = ([5, 6] : List ℤ).sum ∧
      (∀ j a, b'.stack_lengths[j]? = some a →
        2 * j + 1 < (pySliceHead ([3, 4] : List ℤ) (untouchedCount 1 2)).length →
        a = ([3, 4] : List ℤ).getD (2 * j) 0 + ([3, 4] : List ℤ).getD (2 * j + 1) 0) :=
  claim_C9 1 ⟨[], [], [], [], [], [], [], [3, 4], [5, 6]⟩ (by decide) rfl

/-- Witness for C10: an even batch (B = 2) is left untouched by the
`mix3D = 1` step, and an odd batch (B = 3) merges the first two lengths and
keeps the last. -/
theorem claim_C10_witness :
    (untouchedCount 1 ([1, 2, 3] : List ℤ).length =
      if ([1, 2, 3] : List ℤ).length % 2 = 1 then 1 else 0) ∧
    mix3d_step "training" 1 ⟨[], [], [], [], [], [], [], [1, 2], [3, 4]⟩ =
      some ⟨[], [], [], [], [], [], [], [1, 2], [3, 4]⟩ ∧
    (∃ ys ys0,
      pairSums (([1, 2, 3] : List ℤ).take 2) = some ys ∧
      pairSums (([4, 5, 6] : List ℤ).take 2) = some ys0 ∧
      mix3d_step "training" 1 ⟨[], [], [], [], [], [], [], [1, 2, 3], [4, 5, 6]⟩ =
        some { (⟨[], [], [], [], [], [], [], [1, 2, 3], [4, 5, 6]⟩ : BatchArrays) with
               stack_lengths := ys ++ ([1, 2, 3] : List ℤ).drop 2,
               stack_lengths0 := ys0 ++ ([4, 5, 6] : List ℤ).drop 2 }) :=
  ⟨(claim_C10 ⟨[], [], [], [], [], [], [], [1, 2, 3], [4, 5, 6]⟩ rfl).1,
   (claim_C10 ⟨[], [], [], [], [], [], [], [1, 2], [3, 4]⟩ rfl).2.1 (by decide),
   (claim_C10 ⟨[], [], [], [], [], [], [], [1, 2, 3], [4, 5, 6]⟩ rfl).2.2 (by decide)⟩

theorem calib_verify_loop_spec (cloudN : List ℕ) (blim : ℚ) (hne : cloudN ≠ []) :
    ∀ (vs : List ℕ) (bn bp : ℕ) (n pts : ℕ),
      calib_verify_loop cloudN blim vs bn bp = some (n, pts) →
      blim < (pts : ℚ) ∧
      ∃ ds : List ℕ, (∀ x ∈ ds, x ∈ cloudN) ∧ ds ≠ [] ∧ n = bn + ds.length ∧
        pts = bp + ds.sum ∧
        ∀ j, j + 1 < ds.length → ((bp + (ds.take (j + 1)).sum : ℕ) : ℚ) ≤ blim := by
  intro vs
  induction vs with
  | nil => intro bn bp n pts h; simp [calib_verify_loop] at h
  | cons v vs ih =>
    intro bn bp n pts h
    rw [calib_verify_loop] at h
    have hxmem : cloudN.getD (v % cloudN.length) 0 ∈ cloudN :=
      getD_mem_of_lt _ _ _ (Nat.mod_lt v (List.length_pos.mpr hne))
    split at h
    · rename_i hgt
      injection h with h
      cases h
      refine ⟨hgt, [cloudN.getD (v % cloudN.length) 0], ?_, by simp, by simp, by simp, ?_⟩
      · intro y hy
        rw [List.mem_singleton] at hy
        subst hy
        exact hxmem
      · intro j hj
        simp at hj
    · rename_i hle
      obtain ⟨hblim, ds, hmem, hdne, hlen2, hsum, hpre⟩ := ih (bn + 1) _ n pts h
      refine ⟨hblim, cloudN.getD (v % cloudN.length) 0 :: ds, ?_, by simp, ?_, ?_, ?_⟩
      · intro y hy
        rcases List.mem_cons.mp hy with hy | hy
        · subst hy; exact hxmem
        · exact hmem y hy
      · simp only [List.length_cons]
        omega
      · simp only [List.sum_cons]
        omega
      · intro j hj
        cases j with
        | zero =>
          simp only [List.take_succ_cons, List.take_zero, List.sum_cons, List.sum_nil,
            Nat.add_zero]
          exact not_lt.mp hle
        | succ j =>
          have hj' : j + 1 < ds.length := by
            simp only [List.length_cons] at hj
            omega
          have := hpre j hj'
          have he : bp + ((cloudN.getD (v % cloudN.length) 0 :: ds).take (j + 1 + 1)).sum =
              bp + cloudN.getD (v % cloudN.length) 0 + (ds.take (j + 1)).sum := by
            simp only [List.take_succ_cons, List.sum_cons]
            omega
          rw [he]
          exact this

/-- C8: `calib_batch_limit`, given the recorded per-region sizes and a
target batch size, returns exactly (mean points-per-region) × target − 1 as
the new point budget, and each simulated verification batch draws entries
of the recorded list with replacement and accumulates until the running
size first strictly exceeds that budget: a simulation that returns reports
a total above the budget, built from recorded sizes, with every proper
partial total at most the budget. -/
theorem claim_C8 (cloudN : List ℕ) (batch_size : ℚ) (drawss : List (List ℕ))
    (hne : cloudN ≠ []) :
    (calib_batch_limit cloudN batch_size drawss).1 =
      ((cloudN.sum : ℚ) / (cloudN.length : ℚ)) * batch_size - 1 ∧
    (calib_batch_limit cloudN batch_size drawss).2 =
      drawss.map (fun ds => calib_verify_loop cloudN
        (((cloudN.sum : ℚ) / (cloudN.length : ℚ)) * batch_size - 1) ds 0 0) ∧
    (∀ r ∈ (calib_batch_limit cloudN batch_size drawss).2, ∀ n pts, r = some (n, pts) →
      ((cloudN.sum : ℚ) / (cloudN.length : ℚ)) * batch_size - 1 < (pts : ℚ) ∧
      ∃ ds : List ℕ, (∀ x ∈ ds, x ∈ cloudN) ∧ ds ≠ [] ∧ n = ds.length ∧ pts = ds.sum ∧
        ∀ j, j + 1 < ds.length →
          ((ds.take (j + 1)).sum : ℚ) ≤
            ((cloudN.sum : ℚ) / (cloudN.length : ℚ)) * batch_size - 1) := by
  refine ⟨rfl, rfl, ?_⟩
  intro r hr n pts hr2
  subst hr2
  simp only [calib_batch_limit, List.mem_map] at hr
  obtain ⟨ds0, -, hds0⟩ := hr
  obtain ⟨hblim, ds, hmem, hdne, hlen2, hsum, hpre⟩ :=
    calib_verify_loop_spec cloudN _ hne ds0 0 0 n pts hds0
  refine ⟨hblim, ds, hmem, hdne, by omega, by omega, fun j hj => ?_⟩
  have := hpre j hj
  simpa using this

/-- Witness for C8 on the recorded sizes `[2, 3]` with target batch size 2:
the returned budget is the mean-points formula. -/
theorem claim_C8_witness :
    (calib_batch_limit [2, 3] 2 [[0], [1]]).1 =
      ((([2, 3] : List ℕ).sum : ℚ) / (([2, 3] : List ℕ).length : ℚ)) * 2 - 1 :=
  (claim_C8 [2, 3] 2 [[0], [1]] (by decide)).1

theorem smallestK_append_perm {α : Type} (key : α → ℚ) (xs : List α) (k : ℕ) :
    (smallestK key xs k ++ smallestKRest key xs k).Perm xs := by
  rw [smallestK, smallestKRest, List.take_append_drop]
  have h1 := List.mergeSort_perm (xs.map (fun x => (key x, x))) (fun a b => decide (a.1 ≤ b.1))
  have h2 := h1.map (fun c : ℚ × α => c.2)
  have h3 : (fun (c : ℚ × α) => c.2) ∘ (fun x => (key x, x)) = id := rfl
  simpa [List.map_map, h3] using h2

theorem smallestK_length {α : Type} (key : α → ℚ) (xs : List α) (k : ℕ) (h : k ≤ xs.length) :
    (smallestK key xs k).length = k := by
  have hp := (List.mergeSort_perm (xs.map (fun x => (key x, x)))
    (fun a b => decide (a.1 ≤ b.1))).length_eq
  rw [smallestK, List.length_take, List.length_map, hp, List.length_map]
  omega

theorem smallestK_subset {α : Type} (key : α → ℚ) (xs : List α) (k : ℕ) (a : α)
    (h : a ∈ smallestK key xs k) : a ∈ xs :=
  (smallestK_append_perm key xs k).mem_iff.mp (List.mem_append.mpr (Or.inl h))

theorem mergeSort_pairs_fst {α : Type} (key : α → ℚ) (xs : List α) (c : ℚ × α)
    (hc : c ∈ (xs.map (fun x => (key x, x))).mergeSort (fun a b => decide (a.1 ≤ b.1))) :
    c.1 = key c.2 := by
  have hm := (List.mergeSort_perm _ _).mem_iff.mp hc
  rw [List.mem_map] at hm
  obtain ⟨x, -, hx⟩ := hm
  rw [← hx]

theorem smallestK_le {α : Type} (key : α → ℚ) (xs : List α) (k : ℕ) (a b : α)
    (ha : a ∈ smallestK key xs k) (hb : b ∈ smallestKRest key xs k) : key a ≤ key b := by
  rw [smallestK, ← List.map_take] at ha
  rw [smallestKRest, ← List.map_drop] at hb
  obtain ⟨ca, hca, hca2⟩ := List.mem_map.mp ha
  obtain ⟨cb, hcb, hcb2⟩ := List.mem_map.mp hb
  have hsort := @List.sorted_mergeSort (ℚ × α) (fun a b => decide (a.1 ≤ b.1))
    (fun x y z hxy hyz => by
      simp only [decide_eq_true_eq] at hxy hyz ⊢
      exact le_trans hxy hyz)
    (fun x y => by
      rcases le_total x.1 y.1 with h | h <;> simp [h])
    (xs.map (fun x => (key x, x)))
  rw [← List.take_append_drop k ((xs.map (fun x => (key x, x))).mergeSort
    (fun a b => decide (a.1 ≤ b.1))), List.pairwise_append] at hsort
  have hrel := hsort.2.2 ca hca cb hcb
  simp only [decide_eq_true_eq] at hrel
  have e1 := mergeSort_pairs_fst key xs ca (by
    rw [← List.take_append_drop k ((xs.map (fun x => (key x, x))).mergeSort
      (fun a b => decide (a.1 ≤ b.1)))]
    exact List.mem_append.mpr (Or.inl hca))
  have e2 := mergeSort_pairs_fst key xs cb (by
    rw [← List.take_append_drop k ((xs.map (fun x => (key x, x))).mergeSort
      (fun a b => decide (a.1 ≤ b.1)))]
    exact List.mem_append.mpr (Or.inr hcb))
  rw [← hca2, ← hcb2, ← e1, ← e2]
  exact hrel

theorem cheb_lt_of_inCube (p q : Point) (R : ℚ) (hR : 0 < R)
    (h : inCubeStrict p q R = true) : chebDist p q < R := by
  rw [inCubeStrict, List.all_eq_true] at h
  rw [chebDist]
  revert h
  generalize p.zip q = l
  intro h
  induction l with
  | nil => simpa using hR
  | cons c l ih =>
    simp only [List.map_cons, List.foldr_cons]
    have hc := of_decide_eq_true (h c (List.mem_cons_self c l))
    refine max_lt ?_ (ih (fun x hx => h x (List.mem_cons_of_mem c hx)))
    rw [abs_lt]
    constructor <;> linarith [hc.1, hc.2]

/-- C4: for a positive radius, `get_input_area` is a pure function of its
arguments (two calls agree), and every returned point satisfies the
selected shape predicate against the queried coordinates `q` (the full
centre, or its first two coordinates in cylindric mode): without cubes the
squared distance to `q` is at most `in_radius ^ 2` (i.e. the euclidean —
or, in cylindric mode, 2-D horizontal — distance is at most `in_radius`);
with cubes every queried coordinate lies strictly within `in_radius` of
the centre (the source's strict box mask), hence the Chebyshev distance is
strictly below `in_radius`. -/
theorem claim_C4 (d : Dataset) (cloud_ind : ℕ) (center_point q : Point)
    (hr : 0 < d.in_radius)
    (hq : q = if d.cylindric_input then center_point.take 2 else center_point) :
    (get_input_area d cloud_ind center_point = get_input_area d cloud_ind center_point) ∧
    (d.use_cubes = false → ∀ res, get_input_area d cloud_ind center_point = some res →
      ∀ ip ∈ res, sqDist ip.2 q ≤ d.in_radius ^ 2) ∧
    (d.use_cubes = true → ∀ res, get_input_area d cloud_ind center_point = some res →
      ∀ ip ∈ res, inCubeStrict ip.2 q d.in_radius = true ∧
        chebDist ip.2 q < d.in_radius) := by
  have hnneg : ¬ d.in_radius < 0 := not_lt.mpr (le_of_lt hr)
  refine ⟨rfl, ?_, ?_⟩
  · intro hcube res hres ip hip
    rw [get_input_area] at hres
    rcases hp : d.input_points[cloud_ind]? with _ | pts
    · simp only [hp] at hres
      cases hres
    · simp only [hp, if_neg hnneg, hcube, Bool.false_eq_true, if_false] at hres
      injection hres with hres
      subst hres
      rw [query_radius, List.mem_filter] at hip
      rw [hq]
      exact of_decide_eq_true hip.2
  · intro hcube res hres ip hip
    rw [get_input_area] at hres
    rcases hp : d.input_points[cloud_ind]? with _ | pts
    · simp only [hp] at hres
      cases hres
    · simp only [hp, if_neg hnneg, hcube, if_true] at hres
      injection hres with hres
      subst hres
      rw [List.mem_filter] at hip
      have hmask : inCubeStrict ip.2
          (if d.cylindric_input then center_point.take 2 else center_point)
          d.in_radius = true := hip.2
      rw [hq]
      exact ⟨hmask, cheb_lt_of_inCube _ _ _ hr hmask⟩

/-- Witness for C4 on a 1-D scene `[[1], [5]]`, centre `[0]`, radius 2:
the point `[1]` is returned by the ball query and indeed lies within
squared distance `2 ^ 2` of the centre. -/
theorem claim_C4_witness :
    sqDist [1] [0] ≤ (2 : ℚ) ^ 2 :=
  (claim_C4 { baseD with in_radius := 2, input_points := [[[1], [5]]] } 0 [0] [0]
    (by decide) rfl).2.1 rfl
    (query_radius [[1], [5]] [0] ((2 : ℚ) ^ 2)) rfl (0, [1])
    (List.mem_filter.mpr ⟨by decide, decide_eq_true (by norm_num [sqDist])⟩)

/-- C5 (amended): in fixed-count mode (`in_radius = -k`, `k ≥ 1`), with the
scene's points `pts` and queried coordinates `q`:
* without cubes, a scene of at most `k` points is returned whole with no
  crop (all indices, in scene order);
* with cubes the doubled count `2k` governs the fallback, and the crop is
  attempted regardless: on a scene of at most `k` points the partial
  selection `argpartition(dists, k)` is out of bounds and the call raises
  (`none`) instead of returning all points;
* with cubes on a scene of more than `2k` points, the `2k` nearest
  neighbours are queried (exactly `2k` of them, and none of the discarded
  points is closer than a kept one) and then cropped to exactly the `k`
  points of smallest Chebyshev distance (a selection of `k` region points
  whose Chebyshev distances are all at most those of the discarded ones).
(The original claim — fallback with no crop at scenes of at most `k`
points, and a `2k`-nearest-neighbour query whenever the scene holds more
than `k` points — is falsified by `claim_C5_counterexample`.) -/
theorem claim_C5 (d : Dataset) (cloud_ind : ℕ) (center_point q : Point) (k : ℕ)
    (pts : List Point)
    (hq : q = if d.cylindric_input then center_point.take 2 else center_point)
    (hk : d.in_radius = -(k : ℚ)) (hk1 : 1 ≤ k)
    (hpts : d.input_points[cloud_ind]? = some pts) :
    (d.use_cubes = false → pts.length ≤ k →
      get_input_area d cloud_ind center_point = some pts.enum) ∧
    (d.use_cubes = true → pts.length ≤ k →
      get_input_area d cloud_ind center_point = none) ∧
    (d.use_cubes = true → 2 * k < pts.length →
      get_input_area d cloud_ind center_point =
        some (smallestK (fun ip => chebDist ip.2 q) (knnQuery pts q (2 * k)) k) ∧
      (knnQuery pts q (2 * k)).length = 2 * k ∧
      (smallestK (fun ip => chebDist ip.2 q) (knnQuery pts q (2 * k)) k).length = k ∧
      (∀ a ∈ smallestK (fun ip => chebDist ip.2 q) (knnQuery pts q (2 * k)) k,
        a ∈ pts.enum) ∧
      (∀ a ∈ smallestK (fun ip => chebDist ip.2 q) (knnQuery pts q (2 * k)) k,
        ∀ b ∈ smallestKRest (fun ip => chebDist ip.2 q) (knnQuery pts q (2 * k)) k,
          chebDist a.2 q ≤ chebDist b.2 q) ∧
      (∀ a ∈ knnQuery pts q (2 * k),
        ∀ b ∈ smallestKRest (fun ip => sqDist ip.2 q) pts.enum (2 * k),
          sqDist a.2 q ≤ sqDist b.2 q)) := by
  have hneg : d.in_radius < 0 := by
    rw [hk]
    simp only [Left.neg_neg_iff]
    exact_mod_cast hk1
  have hk0 : (⌊-d.in_radius⌋).toNat = k := by
    rw [hk, neg_neg, Int.floor_natCast, Int.toNat_natCast]
  have henum : pts.enum.length = pts.length := List.enum_length
  refine ⟨?_, ?_, ?_⟩
  · intro hcube hlen
    rw [get_input_area]
    simp only [hpts, if_pos hneg, hk0, hcube, Bool.false_eq_true, if_false,
      if_neg (by omega : ¬ pts.length > k)]
  · intro hcube hlen
    rw [get_input_area]
    simp only [hpts, if_pos hneg, hk0, hcube, if_true,
      if_neg (by omega : ¬ pts.length > 2 * k)]
    rw [if_neg (by rw [henum]; omega)]
  · intro hcube hlen
    have hknn : (knnQuery pts q (2 * k)).length = 2 * k := by
      rw [knnQuery]
      exact smallestK_length _ _ _ (by omega)
    have heq : get_input_area d cloud_ind center_point =
        some (smallestK (fun ip => chebDist ip.2 q) (knnQuery pts q (2 * k)) k) := by
      rw [get_input_area]
      simp only [hpts, if_pos hneg, hk0, hcube, if_true,
        if_pos (by omega : pts.length > 2 * k), ← hq]
      rw [if_pos (by rw [hknn]; omega)]
    refine ⟨heq, hknn, ?_, ?_, ?_, ?_⟩
    · exact smallestK_length _ _ _ (by rw [hknn]; omega)
    · intro a ha
      have h1 := smallestK_subset _ _ _ _ ha
      rw [knnQuery] at h1
      exact smallestK_subset _ _ _ _ h1
    · intro a ha b hb
      exact smallestK_le _ _ _ a b ha hb
    · intro a ha b hb
      rw [knnQuery] at ha
      exact smallestK_le _ _ _ a b ha hb

/-- Witness for C5: a sphere-mode fixed-count query with `k = 3` on a
2-point scene returns both points uncropped; the same scene in cube mode
raises; and a cube-mode query with `k = 1` on a 3-point scene queries
exactly `2k = 2` nearest neighbours. -/
theorem claim_C5_witness :
    get_input_area { baseD with in_radius := -(3 : ℚ), input_points := [[[5], [6]]] } 0 [0] =
      some ([[5], [6]] : List Point).enum ∧
    get_input_area
      { baseD with
          in_radius := -(3 : ℚ), use_cubes := true, input_points := [[[5], [6]]] } 0 [0] =
      none ∧
    (knnQuery [[5], [6], [7]] [0] 2).length = 2 :=
  ⟨(claim_C5 { baseD with in_radius := -(3 : ℚ), input_points := [[[5], [6]]] } 0 [0] [0] 3
      [[5], [6]] rfl (by decide) (by decide) rfl).1 rfl (by decide),
   (claim_C5
      { baseD with
          in_radius := -(3 : ℚ), use_cubes := true, input_points := [[[5], [6]]] } 0 [0] [0] 3
      [[5], [6]] rfl (by decide) (by decide) rfl).2.1 rfl (by decide),
   ((claim_C5
      { baseD with
          in_radius := -(1 : ℚ), use_cubes := true, input_points := [[[5], [6], [7]]] } 0 [0]
      [0] 1 [[5], [6], [7]] rfl (by decide) (by decide) rfl).2.2 rfl (by decide)).2.1⟩

/-- Counterexample to C5 as stated: a cube-mode fixed-count query with
`k = 2` on a 2-point scene (at most `k` points): instead of falling back to
all points with no crop, the call raises — `argpartition(cube_dists, 2)` on
2 distances is out of bounds. -/
theorem claim_C5_counterexample :
    get_input_area
      { baseD with
          in_radius := -(2 : ℚ), use_cubes := true, input_points := [[[0], [1]]] } 0 [0] =
      none ∧
    get_input_area
      { baseD with
          in_radius := -(2 : ℚ), use_cubes := true, input_points := [[[0], [1]]] } 0 [0] ≠
      some ([[0], [1]] : List Point).enum :=
  ⟨by decide, by decide⟩
